import Mathlib

/-!
Verification development for the Healthcare Claims Intelligence System.

Shallow embedding of the three lambdas the claims are about:
- backend/lambdas/risk-scorer/lambda_function.py        (rule-based risk scoring)
- backend/lambdas/claim-orchestrator/lambda_function.py (stage orchestration)
- backend/lambdas/openai-medical-extractor/lambda_function.py
  (extraction strategy selection and the deterministic pattern fallback)

Python dictionaries of strings are modelled as association lists, Python
floats as exact rationals, machine-level JSON values as a small inductive
type.  Free-text "details" strings of breakdown entries (produced by
f-string formatting in the source) are elided; category, points and
severity are kept.
-/

namespace HealthcareClaims

/-! ## Python dict / truthiness helpers -/

/-- A Python dict mapping string keys to string values (association list;
lookup takes the first binding). -/
abbrev KVP := List (String × String)

/-- Python dict.get(k): None when the key is absent. -/
def kvpGet? (kvp : KVP) (k : String) : Option String :=
  (kvp.find? (fun p => p.1 == k)).map (·.2)

/-- Python dict.get(k, d). -/
def kvpGetD (kvp : KVP) (k d : String) : String :=
  (kvpGet? kvp k).getD d

/-- Python truthiness of an optional string: None and the empty string are
falsy. -/
def truthy? (o : Option String) : Bool :=
  match o with
  | none => false
  | some s => s != ""

/-- Python string "or": the left operand unless it is falsy (empty). -/
def pyOr (a b : String) : String := if a == "" then b else a

/-! ## Decimal parsing (Python float(...) on money strings)

The scorer parses the claim amount with
float(str(s).replace(chr(36), "").replace(",", "") or "0") inside a
try/except that yields 0 on failure.  We model float() on decimal literals
(optional sign, digits, optional fractional part, surrounding whitespace);
any other shape maps to none, which the caller turns into 0 exactly like
the except branch. -/

/-- Digits of a numeral to a natural number (most significant first). -/
def digitsToNat (l : List Char) : Nat :=
  l.foldl (fun n c => 10 * n + (c.toNat - 48)) 0

/-- Parse an unsigned decimal numeral (digits, optional dot and digits). -/
def parseUnsigned? (l : List Char) : Option ℚ :=
  let ip := l.takeWhile Char.isDigit
  let rest := l.dropWhile Char.isDigit
  match rest with
  | [] => if ip.isEmpty then none else some (digitsToNat ip : ℚ)
  | '.' :: fp =>
      if fp.all Char.isDigit && !(ip.isEmpty && fp.isEmpty) then
        some ((digitsToNat ip : ℚ) + (digitsToNat fp : ℚ) / (10 : ℚ) ^ fp.length)
      else none
  | _ => none

/-- Parse a decimal literal as Python float() would (whitespace-trimmed,
optional sign). -/
def parseDecimal? (l : List Char) : Option ℚ :=
  let t := ((l.dropWhile Char.isWhitespace).reverse.dropWhile Char.isWhitespace).reverse
  match t with
  | '-' :: r => (parseUnsigned? r).map (fun q => -q)
  | '+' :: r => parseUnsigned? r
  | _ => parseUnsigned? t

/-! ## Risk scorer data model

risk-scorer/lambda_function.py reads the claim record's medical_entities
and key_value_pairs and evaluates seven rules.  Absent sub-fields of
medical_entities default exactly as the source's .get defaults do; a
missing string field and an empty string field are observationally
identical in the source (only truthiness and the falsy-or chain are used),
so string fields are modelled as String with "" for absent. -/

structure Patient where
  name : String := ""
  id : String := ""
  age : String := ""
  gender : String := ""
deriving DecidableEq

structure MedicalEntities where
  patient : Patient := {}
  diagnosis_codes : List String := []
  procedure_codes : List String := []
  medications : List String := []
  conditions : List String := []
  claim_amount : String := ""
deriving DecidableEq

/-- One itemized entry of the risk breakdown (category, points, severity);
the free-text details field of the source is elided. -/
structure BreakdownEntry where
  category : String
  points : Nat
  severity : String
deriving DecidableEq

/-! ## Risk scorer rules (lambda_function.py lines 29-210) -/

/-- Rule 1 required administrative fields (line 35). -/
def requiredFields : List String :=
  ["patient_name", "date_of_service", "diagnosis", "procedure"]

/-- Rule 1 (lines 36-39): a required field is counted missing when the
key_value_pairs entry is falsy AND the patient name in medical_entities is
falsy (the source checks both in the same condition). -/
def missingFields (me : MedicalEntities) (kvp : KVP) : List String :=
  requiredFields.filter
    (fun f => !truthy? (kvpGet? kvp f) && me.patient.name == "")

def rule1Points (me : MedicalEntities) (kvp : KVP) : Nat :=
  4 * (missingFields me kvp).length

def rule1Flags (me : MedicalEntities) (kvp : KVP) : List String :=
  if missingFields me kvp = [] then [] else ["INCOMPLETE_DATA"]

def rule1Breakdown (me : MedicalEntities) (kvp : KVP) : List BreakdownEntry :=
  if missingFields me kvp = [] then []
  else [⟨"Missing Information", rule1Points me kvp, "MEDIUM"⟩]

/-- Claim amount string (line 53): key_value_pairs total_charge, else
medical_entities claim_amount, defaulting to "0". -/
def claimAmountStr (me : MedicalEntities) (kvp : KVP) : String :=
  pyOr (kvpGetD kvp "total_charge" "") (pyOr me.claim_amount "0")

/-- Claim amount (lines 53-57): strip currency characters, parse as float,
0 on parse failure. -/
def claimAmount (me : MedicalEntities) (kvp : KVP) : ℚ :=
  let cleaned := (claimAmountStr me kvp).toList.filter
    (fun c => c != '$' && c != ',')
  let s := if cleaned.isEmpty then ['0'] else cleaned
  (parseDecimal? s).getD 0

/-- Rule 2 (lines 59-84): claim amount thresholds, an if/elif chain. -/
def rule2Points (a : ℚ) : Nat :=
  if 10000 < a then 25 else if 5000 < a then 15 else if 2000 < a then 8 else 0

def rule2Flags (a : ℚ) : List String :=
  if 10000 < a then ["HIGH_AMOUNT"]
  else if 5000 < a then ["ELEVATED_AMOUNT"]
  else []

def rule2Breakdown (a : ℚ) : List BreakdownEntry :=
  if 10000 < a then [⟨"High Claim Amount", 25, "HIGH"⟩]
  else if 5000 < a then [⟨"Elevated Claim Amount", 15, "MEDIUM"⟩]
  else if 2000 < a then [⟨"Above Average Amount", 8, "LOW"⟩]
  else []

/-- Rule 3 (lines 87-104): procedure count, an if/elif chain. -/
def rule3Points (me : MedicalEntities) : Nat :=
  if 5 < me.procedure_codes.length then 20
  else if 3 < me.procedure_codes.length then 10
  else 0

def rule3Flags (me : MedicalEntities) : List String :=
  if 5 < me.procedure_codes.length then ["MULTIPLE_PROCEDURES"] else []

def rule3Breakdown (me : MedicalEntities) : List BreakdownEntry :=
  if 5 < me.procedure_codes.length then [⟨"Multiple Procedures", 20, "HIGH"⟩]
  else if 3 < me.procedure_codes.length then [⟨"Several Procedures", 10, "MEDIUM"⟩]
  else []

/-- Diagnoses plus conditions (line 109). -/
def totalDiagnoses (me : MedicalEntities) : Nat :=
  me.diagnosis_codes.length + me.conditions.length

/-- Rule 4 (lines 111-127): diagnosis count, an if/elif chain. -/
def rule4Points (me : MedicalEntities) : Nat :=
  if 4 < totalDiagnoses me then 15
  else if 2 < totalDiagnoses me then 8
  else 0

def rule4Flags (me : MedicalEntities) : List String :=
  if 4 < totalDiagnoses me then ["COMPLEX_CASE"] else []

def rule4Breakdown (me : MedicalEntities) : List BreakdownEntry :=
  if 4 < totalDiagnoses me then [⟨"Multiple Diagnoses", 15, "MEDIUM"⟩]
  else if 2 < totalDiagnoses me then [⟨"Several Diagnoses", 8, "LOW"⟩]
  else []

/-- Count of falsy patient sub-fields (lines 130-132). -/
def missingPatientFields (me : MedicalEntities) : Nat :=
  ([me.patient.name, me.patient.id, me.patient.age, me.patient.gender].filter
    (fun f => f == "")).length

/-- Rule 5 (lines 134-150): incomplete patient data, an if/elif chain. -/
def rule5Points (me : MedicalEntities) : Nat :=
  if 2 < missingPatientFields me then 15
  else if 0 < missingPatientFields me then 7
  else 0

def rule5Flags (me : MedicalEntities) : List String :=
  if 2 < missingPatientFields me then ["INCOMPLETE_PATIENT_INFO"] else []

def rule5Breakdown (me : MedicalEntities) : List BreakdownEntry :=
  if 2 < missingPatientFields me then [⟨"Incomplete Patient Data", 15, "MEDIUM"⟩]
  else if 0 < missingPatientFields me then [⟨"Some Patient Data Missing", 7, "LOW"⟩]
  else []

/-- Rule 6 (lines 153-161): no diagnosis codes and no conditions. -/
def rule6Points (me : MedicalEntities) : Nat :=
  if me.diagnosis_codes = [] ∧ me.conditions = [] then 10 else 0

def rule6Flags (me : MedicalEntities) : List String :=
  if me.diagnosis_codes = [] ∧ me.conditions = [] then ["NO_DIAGNOSIS"] else []

def rule6Breakdown (me : MedicalEntities) : List BreakdownEntry :=
  if me.diagnosis_codes = [] ∧ me.conditions = [] then
    [⟨"Missing Diagnosis", 10, "MEDIUM"⟩]
  else []

/-- Rule 7 (lines 164-172): no procedure codes. -/
def rule7Points (me : MedicalEntities) : Nat :=
  if me.procedure_codes = [] then 10 else 0

def rule7Flags (me : MedicalEntities) : List String :=
  if me.procedure_codes = [] then ["NO_PROCEDURES"] else []

def rule7Breakdown (me : MedicalEntities) : List BreakdownEntry :=
  if me.procedure_codes = [] then [⟨"Missing Procedures", 10, "MEDIUM"⟩] else []

/-- Accumulated risk score: the source initializes risk_score = 0 and adds
each rule's points in order. -/
def riskScore (me : MedicalEntities) (kvp : KVP) : Nat :=
  rule1Points me kvp + rule2Points (claimAmount me kvp) + rule3Points me +
  rule4Points me + rule5Points me + rule6Points me + rule7Points me

/-- Flags in append order (rules 1-7). -/
def riskFlags (me : MedicalEntities) (kvp : KVP) : List String :=
  rule1Flags me kvp ++ rule2Flags (claimAmount me kvp) ++ rule3Flags me ++
  rule4Flags me ++ rule5Flags me ++ rule6Flags me ++ rule7Flags me

/-- Breakdown entries in append order (rules 1-7). -/
def riskBreakdown (me : MedicalEntities) (kvp : KVP) : List BreakdownEntry :=
  rule1Breakdown me kvp ++ rule2Breakdown (claimAmount me kvp) ++
  rule3Breakdown me ++ rule4Breakdown me ++ rule5Breakdown me ++
  rule6Breakdown me ++ rule7Breakdown me

/-- Risk level classification (lines 175-186). -/
def riskLevel (s : Nat) : String :=
  if s ≤ 20 then "LOW" else if s ≤ 50 then "MEDIUM" else "HIGH"

def recommendedAction (s : Nat) : String :=
  if s ≤ 20 then "AUTO_APPROVE" else if s ≤ 50 then "MANUAL_REVIEW"
  else "DETAILED_INVESTIGATION"

def colorIndicator (s : Nat) : String :=
  if s ≤ 20 then "green" else if s ≤ 50 then "yellow" else "red"

/-- Python round(x, 2).  All confidence values produced by the scorer are
integral rationals, where rounding is the identity, so the half-even /
half-away distinction never arises. -/
def pyRound2 (q : ℚ) : ℚ := (round (q * 100) : ℤ) / 100

/-- Confidence score (lines 189-190). -/
def confidenceScore (me : MedicalEntities) (kvp : KVP) : ℚ :=
  pyRound2 ((1 - (riskScore me kvp : ℚ) / 100) * 100)

/-- The risk_analysis record built at lines 193-210.  The timestamp field
is the datetime.now().isoformat() wall-clock string, passed in as an
explicit parameter of the embedding. -/
structure RiskAnalysis where
  claim_id : String
  risk_score : Nat
  risk_level : String
  recommended_action : String
  confidence_score : ℚ
  color_indicator : String
  flags : List String
  risk_breakdown : List BreakdownEntry
  stats_total_diagnoses : Nat
  stats_total_procedures : Nat
  stats_total_medications : Nat
  stats_claim_amount : ℚ
  timestamp : String
  processing_method : String
deriving DecidableEq

/-- The scoring computation of risk-scorer/lambda_function.py lines
29-210: from medical_entities and key_value_pairs (and the wall-clock
reading now) to the risk_analysis record. -/
def riskAnalysis (cid : String) (me : MedicalEntities) (kvp : KVP)
    (now : String) : RiskAnalysis :=
  { claim_id := cid
    risk_score := riskScore me kvp
    risk_level := riskLevel (riskScore me kvp)
    recommended_action := recommendedAction (riskScore me kvp)
    confidence_score := confidenceScore me kvp
    color_indicator := colorIndicator (riskScore me kvp)
    flags := riskFlags me kvp
    risk_breakdown := riskBreakdown me kvp
    stats_total_diagnoses := totalDiagnoses me
    stats_total_procedures := me.procedure_codes.length
    stats_total_medications := me.medications.length
    stats_claim_amount := claimAmount me kvp
    timestamp := now
    processing_method := "rule_based_scoring_v1" }

/-! ## Orchestrator (claim-orchestrator/lambda_function.py)

The handler resolves a claim_id, loads the claim record, synchronously
invokes OpenAIMedicalExtractor and then RiskScorer, and unconditionally
runs the completion update_item.  The two lambda invocations are external
calls; their outcomes (an exception, or a returned payload whose
statusCode field the handler reads) are explicit parameters of the
embedding.  The handler never reads the record's status field. -/

/-- Outcome of one lambda_client.invoke call: either the call raises, or it
returns a payload whose parsed statusCode field is the given value (none
when the payload has no statusCode key). -/
inductive InvokeOutcome where
  | raises
  | returns (statusCode : Option Nat)
deriving DecidableEq

/-- The parts of the claim record the orchestrator reads (lines 39-46).
The status field is carried to express claims about it, though the
handler itself never inspects it. -/
structure OrchClaimRecord where
  status : String := ""
  extracted_text : String := ""
  key_value_pairs : KVP := []
deriving DecidableEq

/-- One recorded stage invocation: target function name and the payload
fields taken from the claim record. -/
structure StageInvocation where
  functionName : String
  payloadText : String
  payloadKVP : KVP
deriving DecidableEq

/-- Observable outcome of one orchestrator run: HTTP status code of the
response, the stage invocations performed in order, the completion
update_item write if it ran (processing_complete value and completed_at
timestamp), and the success booleans reported in the response body. -/
structure OrchResult where
  statusCode : Nat
  invokedStages : List StageInvocation
  finalUpdate : Option (Bool × Nat)
  bodyMedicalOk : Option Bool
  bodyRiskOk : Option Bool
deriving DecidableEq

/-- claim-orchestrator/lambda_function.py lines 17-106.  claimId none
models the 400 branch (no claim_id resolvable from the event), record none
the 404 branch (get_item miss); now is the int(time.time()) reading used
by the completion update. -/
def orchestrate (claimId : Option String) (record : Option OrchClaimRecord)
    (now : Nat) (med risk : InvokeOutcome) : OrchResult :=
  match claimId with
  | none => ⟨400, [], none, none, none⟩
  | some _ =>
    match record with
    | none => ⟨404, [], none, none, none⟩
    | some rec =>
      let medInv : StageInvocation :=
        ⟨"OpenAIMedicalExtractor", rec.extracted_text, rec.key_value_pairs⟩
      match med with
      | .raises => ⟨500, [medInv], none, none, none⟩
      | .returns mc =>
        let riskInv : StageInvocation := ⟨"RiskScorer", "", []⟩
        match risk with
        | .raises => ⟨500, [medInv, riskInv], none, none, none⟩
        | .returns rc =>
          ⟨200, [medInv, riskInv], some (true, now),
            some (mc == some 200), some (rc == some 200)⟩

/-! ## Pattern extraction (openai-medical-extractor/lambda_function.py)

extract_with_rules (lines 226-265) uses three re.findall patterns.  We
implement the scanners with Python regex semantics: left-to-right
non-overlapping scan, leftmost alternative preferred, greedy quantifiers
with backtracking, and the same word-boundary rule as \b. -/

/-- Python regex word characters (\w, ASCII range). -/
def isWordChar (c : Char) : Bool := c.isAlphanum || c == '_'

def optWord (o : Option Char) : Bool :=
  match o with
  | none => false
  | some c => isWordChar c

/-- The \b condition between a previous and a next character (string edges
count as non-word). -/
def boundary (prev next : Option Char) : Bool := optWord prev != optWord next

def isUpperAZ (c : Char) : Bool := 'A' ≤ c && c ≤ 'Z'

def isLowerAZ (c : Char) : Bool := 'a' ≤ c && c ≤ 'z'

/-- Boundary test after consuming k leading digits of l, where the
character before l is prev: the \b that closes the ICD pattern. -/
def tbOk (prev : Char) (l : List Char) (k : Nat) : Bool :=
  boundary (if k = 0 then some prev else l.get? (k - 1)) (l.get? k)

/-- Greedy backtracking for a bounded quantifier: the largest k ≤ m with
f k, scanning downward. -/
def downFrom (f : Nat → Bool) : Nat → Option Nat
  | 0 => if f 0 then some 0 else none
  | k + 1 => if f (k + 1) then some (k + 1) else downFrom f k

/-- One attempt of the ICD-10 pattern (line 252 of the source) at the head
of l, the character before l being prev.  Returns the match length.  The
pattern is one uppercase letter, two digits, an optional dot, zero to four
digits (greedy), between word boundaries; the dot alternative is tried
first and backtracked on failure exactly as the regex engine does. -/
def matchICDAt (prev : Option Char) (l : List Char) : Option Nat :=
  if boundary prev l.head? then
    match l with
    | c :: d1 :: d2 :: rest =>
      if isUpperAZ c && d1.isDigit && d2.isDigit then
        if rest.head? = some '.' then
          match downFrom (tbOk '.' rest.tail)
              (min 4 (rest.tail.takeWhile Char.isDigit).length) with
          | some k => some (4 + k)
          | none => if tbOk d2 rest 0 then some 3 else none
        else
          (downFrom (tbOk d2 rest) (min 4 (rest.takeWhile Char.isDigit).length)).map
            (fun k => 3 + k)
      else none
    | _ => none
  else none

theorem downFrom_eq_some {f : Nat → Bool} {m k : Nat}
    (h : downFrom f m = some k) : k ≤ m ∧ f k = true := by
  induction m with
  | zero =>
    unfold downFrom at h
    split at h
    · cases h; simp_all
    · cases h
  | succ n ih =>
    unfold downFrom at h
    split at h
    · cases h; simp_all
    · have := ih h
      exact ⟨Nat.le_succ_of_le this.1, this.2⟩

theorem takeWhileLengthLe {α} (p : α → Bool) (l : List α) :
    (l.takeWhile p).length ≤ l.length := by
  induction l with
  | nil => simp [List.takeWhile]
  | cons a l ih =>
    simp only [List.takeWhile]
    split
    · simpa using ih
    · simp

theorem matchICD_bounds {prev : Option Char} {l : List Char} {n : Nat}
    (h : matchICDAt prev l = some n) : 3 ≤ n ∧ n ≤ l.length := by
  unfold matchICDAt at h
  split at h
  case isFalse => exact Option.noConfusion h
  split at h
  case h_2 => exact Option.noConfusion h
  case h_1 c d1 d2 rest hbd =>
    split at h
    case isFalse => exact Option.noConfusion h
    case isTrue =>
      split at h
      case isTrue hdot =>
        have hrest : rest.length = rest.tail.length + 1 := by
          cases rest with
          | nil => exact absurd hdot (by simp)
          | cons r rs => simp
        split at h
        case h_1 k hk =>
          injection h with h
          have hb := downFrom_eq_some hk
          have hle : k ≤ (rest.tail.takeWhile Char.isDigit).length :=
            le_trans hb.1 (min_le_right _ _)
          have h2 := le_trans hle (takeWhileLengthLe _ _)
          simp only [List.length_cons]
          omega
        case h_2 =>
          split at h
          · injection h with h
            simp only [List.length_cons]
            omega
          · exact Option.noConfusion h
      case isFalse =>
        rw [Option.map_eq_some'] at h
        obtain ⟨k, hk, rfl⟩ := h
        have hb := downFrom_eq_some hk
        have hle : k ≤ (rest.takeWhile Char.isDigit).length :=
          le_trans hb.1 (min_le_right _ _)
        have h2 := le_trans hle (takeWhileLengthLe _ _)
        simp only [List.length_cons]
        omega

/-- re.findall for the ICD pattern: non-overlapping left-to-right scan;
after a match the scan resumes at the match end, otherwise it advances one
character. -/
def findallICD (prev : Option Char) (l : List Char) : List (List Char) :=
  match l with
  | [] => []
  | c :: cs =>
    match hm : matchICDAt prev (c :: cs) with
    | some n =>
      (c :: cs).take n ::
        findallICD ((c :: cs).take n |>.getLast?) ((c :: cs).drop n)
    | none => findallICD (some c) cs
termination_by l.length
decreasing_by
  · have := matchICD_bounds hm
    simp at this ⊢
    omega
  · simp

/-- Diagnosis codes of extract_with_rules (lines 252-253): findall of the
ICD pattern over the text, deduplicated (list(set(...))); set order is
unspecified in Python, so only membership and duplicate-freedom of the
result are meaningful, which List.dedup preserves. -/
def diagnosisCodesOf (text : String) : List String :=
  ((findallICD none text.toList).map (fun l => String.mk l)).dedup

/-! ### CPT pattern (line 256)

Pattern (case-insensitive): word boundary, the letters CPT, a run of
colons or whitespace, a captured five-digit group, word boundary; or a
captured five-digit group between word boundaries followed somewhere on
the same line by the word "procedure" (a dot in the lookahead does not
cross a newline).  findall collects the captured group of whichever
alternative matched. -/

def lowerEqChar (a b : Char) : Bool := a.toLower == b.toLower

/-- Case-insensitive prefix test of a literal pattern. -/
def ciIsPrefixOf : List Char → List Char → Bool
  | [], _ => true
  | _ :: _, [] => false
  | p :: ps, c :: cs => lowerEqChar p c && ciIsPrefixOf ps cs

/-- Case-insensitive substring test of a literal pattern. -/
def ciOccursIn (pat : List Char) : List Char → Bool
  | [] => ciIsPrefixOf pat []
  | c :: cs => ciIsPrefixOf pat (c :: cs) || ciOccursIn pat cs

/-- Lookahead (?=.*procedure) with re.IGNORECASE: the literal procedure
occurs case-insensitively in the rest of the current line. -/
def lookaheadProcedure (rest : List Char) : Bool :=
  ciOccursIn "procedure".toList (rest.takeWhile (fun c => c != '\n'))

def isColonOrSpace (c : Char) : Bool := c == ':' || c.isWhitespace

/-- First CPT alternative at the head of l: CPT (any case), separators,
five digits, closing word boundary.  Returns (consumed length, captured
digits). -/
def matchCPT1At (prev : Option Char) (l : List Char) : Option (Nat × List Char) :=
  if boundary prev l.head? then
    match l with
    | a :: b :: c :: rest =>
      if lowerEqChar a 'c' && lowerEqChar b 'p' && lowerEqChar c 't' then
        let sep := rest.takeWhile isColonOrSpace
        let rest2 := rest.dropWhile isColonOrSpace
        let ds := rest2.take 5
        if ds.length == 5 && ds.all Char.isDigit && !optWord ((rest2.drop 5).head?) then
          some (3 + sep.length + 5, ds)
        else none
      else none
    | _ => none
  else none

/-- Second CPT alternative at the head of l: five digits between word
boundaries, followed on the same line by "procedure". -/
def matchCPT2At (prev : Option Char) (l : List Char) : Option (Nat × List Char) :=
  if boundary prev l.head? then
    let ds := l.take 5
    if ds.length == 5 && ds.all Char.isDigit && !optWord ((l.drop 5).head?) &&
        lookaheadProcedure (l.drop 5) then
      some (5, ds)
    else none
  else none

theorem matchCPT1_bounds {prev : Option Char} {l : List Char} {n : Nat}
    {g : List Char} (h : matchCPT1At prev l = some (n, g)) :
    1 ≤ n ∧ n ≤ l.length := by
  unfold matchCPT1At at h
  split at h
  case isFalse => exact Option.noConfusion h
  split at h
  case h_2 => exact Option.noConfusion h
  case h_1 a b c rest hbd =>
    dsimp only at h
    split at h
    case isFalse => exact Option.noConfusion h
    split at h
    case isFalse => exact Option.noConfusion h
    case isTrue hcond =>
      injection h with h
      injection h with h1 h2
      simp only [Bool.and_eq_true, beq_iff_eq] at hcond
      have hds : (List.take 5 (rest.dropWhile isColonOrSpace)).length = 5 :=
        hcond.1.1
      rw [List.length_take] at hds
      have hsplit : (rest.takeWhile isColonOrSpace).length +
          (rest.dropWhile isColonOrSpace).length = rest.length := by
        rw [← List.length_append, List.takeWhile_append_dropWhile]
      simp only [List.length_cons]
      omega

theorem matchCPT2_bounds {prev : Option Char} {l : List Char} {n : Nat}
    {g : List Char} (h : matchCPT2At prev l = some (n, g)) :
    1 ≤ n ∧ n ≤ l.length := by
  unfold matchCPT2At at h
  dsimp only at h
  split at h
  case isFalse => exact Option.noConfusion h
  split at h
  case isFalse => exact Option.noConfusion h
  case isTrue hcond =>
    injection h with h
    injection h with h1 h2
    simp only [Bool.and_eq_true, beq_iff_eq] at hcond
    have hds : (List.take 5 l).length = 5 := hcond.1.1.1
    rw [List.length_take] at hds
    omega

/-- re.findall for the CPT pattern: at each position the first alternative
is preferred; the scan resumes after the consumed characters. -/
def findallCPT (prev : Option Char) (l : List Char) : List (List Char) :=
  match l with
  | [] => []
  | c :: cs =>
    match hm : matchCPT1At prev (c :: cs) with
    | some (n, g) =>
      g :: findallCPT ((c :: cs).take n |>.getLast?) ((c :: cs).drop n)
    | none =>
      match hm2 : matchCPT2At prev (c :: cs) with
      | some (n, g) =>
        g :: findallCPT ((c :: cs).take n |>.getLast?) ((c :: cs).drop n)
      | none => findallCPT (some c) cs
termination_by l.length
decreasing_by
  · have := matchCPT1_bounds hm
    simp at this ⊢
    omega
  · have := matchCPT2_bounds hm2
    simp at this ⊢
    omega
  · simp

/-- Procedure codes of extract_with_rules (lines 256-258): the non-empty
captured group of each match, deduplicated. -/
def procedureCodesOf (text : String) : List String :=
  ((findallCPT none text.toList).map (fun l => String.mk l)).dedup

/-! ### Medication pattern (line 261)

Pattern: word boundary, one uppercase letter, one or more lowercase
letters ending in one of the suffixes in, ol, ide, mab, tinib, word
boundary.  Since every quantified character is lowercase, a match consumes
the uppercase letter plus the entire maximal lowercase run, and exists iff
the run is closed by a non-word character (or the end), ends with one of
the suffixes, and is strictly longer than that suffix. -/

def medSuffixes : List (List Char) :=
  [['i', 'n'], ['o', 'l'], ['i', 'd', 'e'], ['m', 'a', 'b'],
   ['t', 'i', 'n', 'i', 'b']]

/-- Exact prefix test. -/
def listIsPrefixOf : List Char → List Char → Bool
  | [], _ => true
  | _ :: _, [] => false
  | p :: ps, c :: cs => p == c && listIsPrefixOf ps cs

def matchMedAt (prev : Option Char) (l : List Char) : Option (Nat × List Char) :=
  if boundary prev l.head? then
    match l with
    | c :: rest =>
      if isUpperAZ c then
        let run := rest.takeWhile isLowerAZ
        if !optWord ((rest.dropWhile isLowerAZ).head?) &&
            medSuffixes.any
              (fun s => listIsPrefixOf s.reverse run.reverse &&
                s.length + 1 ≤ run.length) then
          some (1 + run.length, c :: run)
        else none
      else none
    | [] => none
  else none

theorem matchMed_bounds {prev : Option Char} {l : List Char} {n : Nat}
    {g : List Char} (h : matchMedAt prev l = some (n, g)) :
    1 ≤ n ∧ n ≤ l.length := by
  unfold matchMedAt at h
  split at h
  case isFalse => exact Option.noConfusion h
  split at h
  case h_2 => exact Option.noConfusion h
  case h_1 c rest hbd =>
    dsimp only at h
    split at h
    case isFalse => exact Option.noConfusion h
    split at h
    case isFalse => exact Option.noConfusion h
    case isTrue =>
      injection h with h
      injection h with h1 h2
      have := takeWhileLengthLe isLowerAZ rest
      simp only [List.length_cons]
      omega

/-- re.findall for the medication pattern. -/
def findallMed (prev : Option Char) (l : List Char) : List (List Char) :=
  match l with
  | [] => []
  | c :: cs =>
    match hm : matchMedAt prev (c :: cs) with
    | some (n, g) =>
      g :: findallMed ((c :: cs).take n |>.getLast?) ((c :: cs).drop n)
    | none => findallMed (some c) cs
termination_by l.length
decreasing_by
  · have := matchMed_bounds hm
    simp at this ⊢
    omega
  · simp

/-- Medications of extract_with_rules (lines 261-263): matches,
deduplicated by list(set(...)), truncated to ten entries. -/
def medicationsOf (text : String) : List String :=
  (((findallMed none text.toList).map (fun l => String.mk l)).dedup).take 10

/-! ### The medical_data dictionary and extract_with_rules -/

/-- JSON-like values stored in the medical_data dict built by
extract_with_rules: strings, lists of strings, and string-valued
sub-dicts. -/
inductive JVal where
  | str (v : String)
  | arr (v : List String)
  | obj (v : List (String × String))
deriving DecidableEq

/-- The medical_data dict, as an association list. -/
abbrev MedicalData := List (String × JVal)

/-- Python dict assignment d[k] = v: replace the first binding of k, or
append when absent. -/
def setKey : MedicalData → String → JVal → MedicalData
  | [], k, v => [(k, v)]
  | (k', v') :: rest, k, v =>
    if k' == k then (k, v) :: rest else (k', v') :: setKey rest k v

/-- Python dict lookup. -/
def getKey (d : MedicalData) (k : String) : Option JVal :=
  (d.find? (fun p => p.1 == k)).map (·.2)

/-- extract_with_rules (openai-medical-extractor/lambda_function.py lines
226-265): the deterministic, dependency-free pattern fallback. -/
def extract_with_rules (text : String) (kvp : KVP) : MedicalData :=
  let d : MedicalData :=
    [("patient", .obj []),
     ("diagnosis_codes", .arr []),
     ("procedure_codes", .arr []),
     ("medications", .arr []),
     ("conditions", .arr []),
     ("provider", .obj []),
     ("claim_amount", .str ""),
     ("extraction_method", .str "rule_based")]
  let d :=
    if kvp.isEmpty then d
    else
      setKey
        (setKey
          (setKey d "patient"
            (.obj [("name", kvpGetD kvp "patient_name" ""),
                   ("id", kvpGetD kvp "patient_id" ""),
                   ("age", kvpGetD kvp "patient_age" ""),
                   ("gender", kvpGetD kvp "patient_gender" "")]))
          "claim_amount" (.str (kvpGetD kvp "total_charge" "")))
        "provider" (.obj [("name", kvpGetD kvp "provider_name" "")])
  let d := setKey d "diagnosis_codes" (.arr (diagnosisCodesOf text))
  let d := setKey d "procedure_codes" (.arr (procedureCodesOf text))
  setKey d "medications" (.arr (medicationsOf text))

/-- The eight fields of the canonical medical_entities shape. -/
def medicalEntityKeys : List String :=
  ["patient", "diagnosis_codes", "procedure_codes", "medications",
   "conditions", "provider", "claim_amount", "extraction_method"]

/-- Structural completeness: every canonical field is present. -/
def structurallyComplete (d : MedicalData) : Bool :=
  medicalEntityKeys.all (fun k => (getKey d k).isSome)

/-! ### Extraction strategy selection (lambda_handler lines 96-129)

The two external strategies (GPU service, OpenAI) are modelled by their
observable results: none when the call fails or is unavailable.
extract_with_openai on failure falls back to extract_with_rules with an
EMPTY key_value_pairs dict (line 224); the handler falls back to
extract_with_rules with the event dict when no OpenAI key is available
(line 126). -/

def selectMedicalData (analysisTier : String) (gpuServiceUrl : String)
    (gpuResult : Option MedicalData) (openaiKey : Option String)
    (openaiResult : Option MedicalData) (text : String) (kvp : KVP) :
    MedicalData :=
  let md0 : Option MedicalData :=
    if analysisTier == "pro" && gpuServiceUrl != "" then gpuResult else none
  match md0 with
  | some m => m
  | none =>
    match openaiKey with
    | some _ =>
      match openaiResult with
      | some m => m
      | none => extract_with_rules text []
    | none => extract_with_rules text kvp

/-! ## Token-occurrence predicate for the ICD pattern (claim C9)

A code occurs as a standalone token when the character before it is a
non-word character (or the start of the text) and the characters after it
cannot extend the regex match: the next character is a non-word character
(or the end), and when that character is a dot the one after it is also
non-word (otherwise the regex's optional-dot branch munches further, as in
I10.5, where the token present is I10.5, not I10). -/

/-- The character immediately before the token: the last of pre, or the
scan's previous character when pre is empty. -/
def charBefore (prev : Option Char) (pre : List Char) : Option Char :=
  match pre.getLast? with
  | some c => some c
  | none => prev

/-- The first character of l is absent or non-word. -/
def headNonWordB (l : List Char) : Bool := !optWord l.head?

/-- Right-boundary condition for a standalone token occurrence. -/
def postOkB (post : List Char) : Bool :=
  headNonWordB post &&
    (if post.head? = some '.' then headNonWordB post.tail else true)

/-- tok occurs as a standalone (maximal) token of text. -/
def icdTokenOccurs (text tok : List Char) : Prop :=
  ∃ pre post, text = pre ++ (tok ++ post) ∧
    optWord (charBefore none pre) = false ∧ postOkB post = true

/-! ## Concrete scenario of claim C6 -/

/-- Claim C6 medical entities: six procedure codes, no diagnosis codes, no
conditions, all patient sub-fields present. -/
def c6me : MedicalEntities :=
  { patient := { name := "John Smith", id := "P100", age := "45", gender := "M" }
    procedure_codes := ["99213", "99214", "99215", "71020", "80053", "85025"] }

/-- Claim C6 administrative fields: all required fields present, claim
amount 12000. -/
def c6kvp : KVP :=
  [("patient_name", "John Smith"), ("date_of_service", "2024-01-15"),
   ("diagnosis", "diabetes"), ("procedure", "office visit"),
   ("total_charge", "12000")]

/-! # Theorems

Shared helper lemmas first, then one theorem per claim (with its
counterexample or witness where required). -/

/-- The confidence formula simplifies exactly: rounding an integral
rational is the identity. -/
theorem confidence_eq_100_sub (me : MedicalEntities) (kvp : KVP) :
    confidenceScore me kvp = 100 - (riskScore me kvp : ℚ) := by
  unfold confidenceScore pyRound2
  have h1 : (1 - (riskScore me kvp : ℚ) / 100) * 100 = 100 - riskScore me kvp := by
    ring
  rw [h1]
  have h2 : ((100 : ℚ) - riskScore me kvp) * 100 =
      ((10000 - 100 * (riskScore me kvp : ℤ) : ℤ) : ℚ) := by
    push_cast
    ring
  rw [h2, round_intCast]
  push_cast
  ring

/-! ## Claim C1 -/

/-- Claim C1 as stated is false: on a record already at SCORING_COMPLETE,
re-invoking the orchestrator is not a no-op — both stages are invoked again
and the completion update_item runs again (writing a fresh timestamp). -/
theorem C1_counterexample :
    (orchestrate (some "c1")
      (some { status := "SCORING_COMPLETE", extracted_text := "t",
              key_value_pairs := [] })
      5 (.returns (some 200)) (.returns (some 200))).invokedStages ≠ [] ∧
    (orchestrate (some "c1")
      (some { status := "SCORING_COMPLETE", extracted_text := "t",
              key_value_pairs := [] })
      5 (.returns (some 200)) (.returns (some 200))).finalUpdate =
      some (true, 5) := by
  decide

/-- Claim C1 amended: re-entrant invocation of the orchestrator never skips
a stage.  For every existing record — whatever its status, including
SCORING_COMPLETE — the run first invokes the medical-extraction stage, and
the entire observable behavior is independent of the record's status
field (the handler never reads it). -/
theorem C1_orchestrator_reinvokes_stages (cid : String) (rec : OrchClaimRecord)
    (now : Nat) (med risk : InvokeOutcome) :
    (orchestrate (some cid) (some rec) now med risk).invokedStages.head? =
      some ⟨"OpenAIMedicalExtractor", rec.extracted_text, rec.key_value_pairs⟩ ∧
    ∀ s : String,
      orchestrate (some cid) (some { rec with status := s }) now med risk =
        orchestrate (some cid) (some rec) now med risk := by
  refine ⟨?_, fun s => ?_⟩
  · cases med <;> cases risk <;> rfl
  · cases med <;> cases risk <;> rfl

/-! ## Claim C2 -/

/-- Claim C2 as stated is false: when risk scoring returns a non-success
payload (statusCode 500), the orchestrator still runs the completion
update (processing_complete = true, fresh timestamp) and still returns a
success (200) result to its caller. -/
theorem C2_counterexample :
    (orchestrate (some "c1")
      (some { status := "MEDICAL_ANALYSIS_COMPLETE" })
      7 (.returns (some 200)) (.returns (some 500))).finalUpdate =
      some (true, 7) ∧
    (orchestrate (some "c1")
      (some { status := "MEDICAL_ANALYSIS_COMPLETE" })
      7 (.returns (some 200)) (.returns (some 500))).statusCode = 200 := by
  decide

/-- Claim C2 amended: the completion update runs exactly when both stage
invocations return payloads without raising, regardless of the status
codes those payloads carry; a failure (500) result without the completion
update happens only when a stage invocation raises. -/
theorem C2_completion_unconditional (cid : String) (rec : OrchClaimRecord)
    (now : Nat) (med risk : InvokeOutcome) :
    (orchestrate (some cid) (some rec) now med risk).finalUpdate =
      (match med, risk with
       | .returns _, .returns _ => some (true, now)
       | _, _ => none) ∧
    (orchestrate (some cid) (some rec) now med risk).statusCode =
      (match med, risk with
       | .returns _, .returns _ => 200
       | _, _ => 500) := by
  cases med <;> cases risk <;> exact ⟨rfl, rfl⟩

/-! ## Claim C3 -/

/-- Claim C3 as stated is false: the risk_analysis record embeds the
wall-clock timestamp (datetime.now().isoformat()), so two invocations on
identical medical_entities and key_value_pairs produce different
risk_analysis values. -/
theorem C3_counterexample :
    riskAnalysis "c1" {} [] "2025-01-01T00:00:00" ≠
      riskAnalysis "c1" {} [] "2025-01-01T00:00:01" := by
  intro h
  exact absurd (congrArg RiskAnalysis.timestamp h) (by decide)

/-- Claim C3 amended: the scoring computation is deterministic in every
field except the embedded wall-clock timestamp — two invocations on
identical medical_entities and key_value_pairs inputs agree on all of
risk_score, risk_level, recommended_action, confidence_score, flags,
breakdown and statistics, differing only in the timestamp field. -/
theorem C3_deterministic_mod_timestamp (cid : String) (me : MedicalEntities)
    (kvp : KVP) (t1 t2 : String) :
    riskAnalysis cid me kvp t1 =
      { riskAnalysis cid me kvp t2 with timestamp := t1 } := rfl

/-! ## Flag membership helpers -/

theorem eq_of_mem_ite_singleton {c : Prop} [Decidable c] {s x : String}
    (h : x ∈ (if c then [s] else ([] : List String))) : x = s := by
  split at h <;> simp_all

theorem eq_of_mem_ite_ite {c1 c2 : Prop} [Decidable c1] [Decidable c2]
    {a b x : String}
    (h : x ∈ (if c1 then [a] else if c2 then [b] else ([] : List String))) :
    x = a ∨ x = b := by
  split at h
  · simp_all
  · split at h <;> simp_all

theorem eq_of_mem_ite_nil_singleton {c : Prop} [Decidable c] {s x : String}
    (h : x ∈ (if c then ([] : List String) else [s])) : x = s := by
  split at h <;> simp_all

theorem mem_rule1Flags_eq {me : MedicalEntities} {kvp : KVP} {x : String}
    (h : x ∈ rule1Flags me kvp) : x = "INCOMPLETE_DATA" := by
  unfold rule1Flags at h
  exact eq_of_mem_ite_nil_singleton h

theorem mem_rule2Flags_eq {a : ℚ} {x : String} (h : x ∈ rule2Flags a) :
    x = "HIGH_AMOUNT" ∨ x = "ELEVATED_AMOUNT" := by
  unfold rule2Flags at h
  exact eq_of_mem_ite_ite h

theorem mem_rule3Flags_eq {me : MedicalEntities} {x : String}
    (h : x ∈ rule3Flags me) : x = "MULTIPLE_PROCEDURES" := by
  unfold rule3Flags at h
  exact eq_of_mem_ite_singleton h

theorem mem_rule4Flags_eq {me : MedicalEntities} {x : String}
    (h : x ∈ rule4Flags me) : x = "COMPLEX_CASE" := by
  unfold rule4Flags at h
  exact eq_of_mem_ite_singleton h

theorem mem_rule5Flags_eq {me : MedicalEntities} {x : String}
    (h : x ∈ rule5Flags me) : x = "INCOMPLETE_PATIENT_INFO" := by
  unfold rule5Flags at h
  exact eq_of_mem_ite_singleton h

theorem mem_rule6Flags_eq {me : MedicalEntities} {x : String}
    (h : x ∈ rule6Flags me) : x = "NO_DIAGNOSIS" := by
  unfold rule6Flags at h
  exact eq_of_mem_ite_singleton h

theorem mem_rule7Flags_eq {me : MedicalEntities} {x : String}
    (h : x ∈ rule7Flags me) : x = "NO_PROCEDURES" := by
  unfold rule7Flags at h
  exact eq_of_mem_ite_singleton h

theorem mem_riskFlags_iff (me : MedicalEntities) (kvp : KVP) (x : String) :
    x ∈ riskFlags me kvp ↔
      x ∈ rule1Flags me kvp ∨ x ∈ rule2Flags (claimAmount me kvp) ∨
      x ∈ rule3Flags me ∨ x ∈ rule4Flags me ∨ x ∈ rule5Flags me ∨
      x ∈ rule6Flags me ∨ x ∈ rule7Flags me := by
  simp [riskFlags, List.mem_append, or_assoc]

/-- Closed form of the rule 1 missing-field list: empty whenever the
patient name in medical_entities is non-empty. -/
theorem missingFields_eq (me : MedicalEntities) (kvp : KVP) :
    missingFields me kvp =
      if me.patient.name = "" then
        requiredFields.filter (fun f => !truthy? (kvpGet? kvp f))
      else [] := by
  unfold missingFields
  by_cases h : me.patient.name = "" <;> simp [h]

/-! ## Claim C4 -/

/-- Claim C4 as stated is false: with all four required fields absent from
key_value_pairs but a patient name present in medical_entities, the
missing-information rule contributes 0 points (not 16) and no
INCOMPLETE_DATA flag is raised — the source ANDs each per-field check with
the absence of the medical_entities patient name. -/
theorem C4_counterexample :
    rule1Points { patient := { name := "John" } } [] = 0 ∧
    "INCOMPLETE_DATA" ∉ riskFlags { patient := { name := "John" } } [] ∧
    riskScore { patient := { name := "John" } } [] = 35 := by
  decide

/-- Claim C4 amended: the missing-information rule contributes 4 points per
required field absent from key_value_pairs, but only when the patient name
in medical_entities is also absent; when that name is present the rule
contributes nothing and adds no flag or breakdown entry, regardless of the
required fields. -/
theorem C4_missing_info_gated_by_patient_name (me : MedicalEntities)
    (kvp : KVP) :
    rule1Points me kvp =
      (if me.patient.name = "" then
        4 * (requiredFields.filter (fun f => !truthy? (kvpGet? kvp f))).length
      else 0) ∧
    ("INCOMPLETE_DATA" ∈ riskFlags me kvp ↔
      me.patient.name = "" ∧
        requiredFields.filter (fun f => !truthy? (kvpGet? kvp f)) ≠ []) ∧
    (rule1Breakdown me kvp ≠ [] ↔
      me.patient.name = "" ∧
        requiredFields.filter (fun f => !truthy? (kvpGet? kvp f)) ≠ []) := by
  have hmf := missingFields_eq me kvp
  refine ⟨?_, ?_, ?_⟩
  · unfold rule1Points
    rw [hmf]
    by_cases h : me.patient.name = "" <;> simp [h]
  · rw [mem_riskFlags_iff]
    constructor
    · rintro (h | h | h | h | h | h | h)
      · unfold rule1Flags at h
        rw [hmf] at h
        by_cases hn : me.patient.name = ""
        · rw [if_pos hn] at h
          split at h
          · simp at h
          · exact ⟨hn, by assumption⟩
        · rw [if_neg hn] at h
          simp at h
      · rcases mem_rule2Flags_eq h with h' | h' <;> exact absurd h' (by decide)
      · exact absurd (mem_rule3Flags_eq h) (by decide)
      · exact absurd (mem_rule4Flags_eq h) (by decide)
      · exact absurd (mem_rule5Flags_eq h) (by decide)
      · exact absurd (mem_rule6Flags_eq h) (by decide)
      · exact absurd (mem_rule7Flags_eq h) (by decide)
    · rintro ⟨hn, hne⟩
      left
      unfold rule1Flags
      rw [hmf, if_pos hn, if_neg hne]
      simp
  · unfold rule1Breakdown
    rw [hmf]
    by_cases hn : me.patient.name = ""
    · rw [if_pos hn]
      constructor
      · intro h
        split at h
        · exact absurd rfl h
        · exact ⟨hn, by assumption⟩
      · rintro ⟨-, hne⟩
        rw [if_neg hne]
        simp
    · rw [if_neg hn]
      simp [hn]

/-! ## Claim C6 -/

/-- Claim C6 confirmed: six procedure codes, no diagnoses or conditions,
amount 12000, all required and patient fields present scores
25 (amount over 10000) + 20 (more than 5 procedures) + 10 (no diagnosis)
= 55, classified HIGH with action DETAILED_INVESTIGATION, flags including
HIGH_AMOUNT, MULTIPLE_PROCEDURES and NO_DIAGNOSIS. -/
theorem C6_scenario :
    riskScore c6me c6kvp = 55 ∧
    rule2Points (claimAmount c6me c6kvp) = 25 ∧
    rule3Points c6me = 20 ∧
    rule6Points c6me = 10 ∧
    riskLevel (riskScore c6me c6kvp) = "HIGH" ∧
    recommendedAction (riskScore c6me c6kvp) = "DETAILED_INVESTIGATION" ∧
    "HIGH_AMOUNT" ∈ riskFlags c6me c6kvp ∧
    "MULTIPLE_PROCEDURES" ∈ riskFlags c6me c6kvp ∧
    "NO_DIAGNOSIS" ∈ riskFlags c6me c6kvp := by
  decide

/-! ## Claim C7 -/

/-- Claim C7 confirmed: at a claim amount of exactly 10001 only the
highest bucket fires — 25 points, flag HIGH_AMOUNT, a single High Claim
Amount breakdown entry — and ELEVATED_AMOUNT is never among the flags, nor
is any Elevated or Above Average entry in the breakdown (the source's
if/elif chain makes the buckets mutually exclusive). -/
theorem C7_amount_buckets (me : MedicalEntities) (kvp : KVP)
    (h : claimAmount me kvp = 10001) :
    rule2Points (claimAmount me kvp) = 25 ∧
    rule2Flags (claimAmount me kvp) = ["HIGH_AMOUNT"] ∧
    rule2Breakdown (claimAmount me kvp) = [⟨"High Claim Amount", 25, "HIGH"⟩] ∧
    "ELEVATED_AMOUNT" ∉ riskFlags me kvp := by
  have h2 : rule2Flags (10001 : ℚ) = ["HIGH_AMOUNT"] := by decide
  refine ⟨by rw [h]; decide, by rw [h]; exact h2, by rw [h]; decide, ?_⟩
  rw [mem_riskFlags_iff]
  rintro (hm | hm | hm | hm | hm | hm | hm)
  · exact absurd (mem_rule1Flags_eq hm) (by decide)
  · rw [h, h2] at hm
    simp at hm
  · exact absurd (mem_rule3Flags_eq hm) (by decide)
  · exact absurd (mem_rule4Flags_eq hm) (by decide)
  · exact absurd (mem_rule5Flags_eq hm) (by decide)
  · exact absurd (mem_rule6Flags_eq hm) (by decide)
  · exact absurd (mem_rule7Flags_eq hm) (by decide)

/-- Witness for C7 at the concrete input total_charge = "10001". -/
theorem C7_amount_buckets_witness :
    claimAmount {} [("total_charge", "10001")] = 10001 ∧
    rule2Points (claimAmount {} [("total_charge", "10001")]) = 25 ∧
    "ELEVATED_AMOUNT" ∉ riskFlags {} [("total_charge", "10001")] := by
  have h : claimAmount {} [("total_charge", "10001")] = 10001 := by decide
  exact ⟨h, (C7_amount_buckets {} _ h).1, (C7_amount_buckets {} _ h).2.2.2⟩

/-! ## Claim C8 -/

/-- Claim C8 confirmed: the reported confidence_score is exactly
(1 - risk_score/100) * 100 rounded to two decimals, with no clamping — the
rounded formula simplifies to 100 - risk_score exactly. -/
theorem C8_confidence_formula (cid : String) (me : MedicalEntities)
    (kvp : KVP) (now : String) :
    (riskAnalysis cid me kvp now).confidence_score =
      pyRound2 ((1 - (riskScore me kvp : ℚ) / 100) * 100) ∧
    (riskAnalysis cid me kvp now).confidence_score =
      100 - (riskScore me kvp : ℚ) :=
  ⟨rfl, confidence_eq_100_sub me kvp⟩

/-! ## Claim C10 -/

theorem rule1Points_le (me : MedicalEntities) (kvp : KVP) :
    rule1Points me kvp ≤ 16 := by
  unfold rule1Points missingFields
  have h := List.length_filter_le
    (fun f => !truthy? (kvpGet? kvp f) && me.patient.name == "") requiredFields
  have h4 : requiredFields.length = 4 := rfl
  omega

theorem rule2Points_le (a : ℚ) : rule2Points a ≤ 25 := by
  unfold rule2Points
  split_ifs <;> omega

theorem rule5Points_le (me : MedicalEntities) : rule5Points me ≤ 15 := by
  unfold rule5Points
  split_ifs <;> omega

theorem rule3_or_rule7 (me : MedicalEntities) :
    rule3Points me = 0 ∨ rule7Points me = 0 := by
  by_cases h : me.procedure_codes = []
  · left
    simp [rule3Points, h]
  · right
    simp [rule7Points, h]

theorem rule4_or_rule6 (me : MedicalEntities) :
    rule4Points me = 0 ∨ rule6Points me = 0 := by
  by_cases h : me.diagnosis_codes = [] ∧ me.conditions = []
  · left
    simp [rule4Points, totalDiagnoses, h.1, h.2]
  · right
    simp [rule6Points, h]

theorem rule37_le (me : MedicalEntities) :
    rule3Points me + rule7Points me ≤ 20 := by
  by_cases h : me.procedure_codes = []
  · simp [rule3Points, rule7Points, h]
  · have h7 : rule7Points me = 0 := by simp [rule7Points, h]
    have h3 : rule3Points me ≤ 20 := by unfold rule3Points; split_ifs <;> omega
    omega

theorem rule46_le (me : MedicalEntities) :
    rule4Points me + rule6Points me ≤ 15 := by
  by_cases h : me.diagnosis_codes = [] ∧ me.conditions = []
  · have h4 : rule4Points me = 0 := by
      simp [rule4Points, totalDiagnoses, h.1, h.2]
    have h6 : rule6Points me ≤ 10 := by unfold rule6Points; split_ifs <;> omega
    omega
  · have h6 : rule6Points me = 0 := by simp [rule6Points, h]
    have h4 : rule4Points me ≤ 15 := by unfold rule4Points; split_ifs <;> omega
    omega

/-- Claim C10 confirmed: the risk score is bounded by 91 for every input —
the procedure rules (max 20) and no-procedures rule (10) are mutually
exclusive, as are the diagnosis rules (max 15) and the no-diagnosis rule
(10), giving 16 + 25 + 20 + 15 + 15 = 91 — so the confidence formula never
produces a negative value. -/
theorem C10_score_bounded (me : MedicalEntities) (kvp : KVP) :
    riskScore me kvp ≤ 91 ∧
    (rule3Points me = 0 ∨ rule7Points me = 0) ∧
    (rule4Points me = 0 ∨ rule6Points me = 0) ∧
    0 ≤ confidenceScore me kvp ∧
    (∃ me' : MedicalEntities, ∃ kvp' : KVP, riskScore me' kvp' = 91) := by
  have h1 := rule1Points_le me kvp
  have h2 := rule2Points_le (claimAmount me kvp)
  have h37 := rule37_le me
  have h46 := rule46_le me
  have h5 := rule5Points_le me
  have hs : riskScore me kvp ≤ 91 := by unfold riskScore; omega
  refine ⟨hs, rule3_or_rule7 me, rule4_or_rule6 me, ?_, ?_⟩
  · rw [confidence_eq_100_sub]
    have h91 : (riskScore me kvp : ℚ) ≤ 91 := by exact_mod_cast hs
    linarith
  · exact ⟨{ diagnosis_codes := ["a", "b", "c", "d", "e"],
             procedure_codes := ["1", "2", "3", "4", "5", "6"] },
           [("total_charge", "20000")], by decide⟩

/-! ## Claim C5 -/

/-- Claim C5 confirmed: when every external service is unreachable (no GPU
result, no OpenAI credential), the extraction stage runs exactly the
deterministic pattern fallback, whose output is a structurally complete
medical_entities record (all eight canonical fields present, method tagged
rule_based).  extract_with_rules is a total function of the text and
key-value pairs alone — it cannot raise and consults no external
service. -/
theorem C5_fallback_guarantee (tier url : String) (oaiRes : Option MedicalData)
    (text : String) (kvp : KVP) :
    selectMedicalData tier url none none oaiRes text kvp =
      extract_with_rules text kvp ∧
    structurallyComplete (extract_with_rules text kvp) = true ∧
    getKey (extract_with_rules text kvp) "extraction_method" =
      some (.str "rule_based") := by
  refine ⟨?_, ?_, ?_⟩
  · unfold selectMedicalData
    rw [ite_self]
  · cases kvp <;> rfl
  · cases kvp <;> rfl

theorem word_of_digit {c : Char} (h : c.isDigit = true) : isWordChar c = true := by
  simp [isWordChar, Char.isAlphanum, h]

theorem word_of_upper {c : Char} (h : isUpperAZ c = true) : isWordChar c = true := by
  simp only [isUpperAZ, Bool.and_eq_true, decide_eq_true_eq] at h
  have h1 : c.isUpper = true := by
    simp only [Char.isUpper, Bool.and_eq_true, decide_eq_true_eq]
    exact ⟨h.1, h.2⟩
  simp [isWordChar, Char.isAlphanum, Char.isAlpha, h1]

theorem not_digit_of_not_word {c : Char} (h : isWordChar c = false) :
    c.isDigit = false := by
  cases hd : c.isDigit
  · rfl
  · rw [word_of_digit hd] at h
    exact absurd h (by simp)

theorem takeWhile_digit_nil {post : List Char} (h : headNonWordB post = true) :
    post.takeWhile Char.isDigit = [] := by
  cases post with
  | nil => rfl
  | cons c rest =>
    have hc : isWordChar c = false := by
      simpa [headNonWordB, optWord] using h
    rw [List.takeWhile_cons, if_neg]
    simp [not_digit_of_not_word hc]

/-- The E11.9 token matches exactly (length 5) at a position whose
previous character is non-word, for any admissible right context. -/
theorem matchICD_E119 {prev : Option Char} (hprev : optWord prev = false)
    {post : List Char} (hpost : postOkB post = true) :
    matchICDAt prev ('E' :: '1' :: '1' :: '.' :: '9' :: post) = some 5 := by
  have hb : boundary prev (some 'E') = true := by
    unfold boundary
    rw [hprev]
    decide
  have hhead : headNonWordB post = true := by
    simp only [postOkB, Bool.and_eq_true] at hpost
    exact hpost.1
  have ht : ('9'::post).takeWhile Char.isDigit = ['9'] := by
    rw [List.takeWhile_cons, if_pos (by decide), takeWhile_digit_nil hhead]
  have hop : optWord (post.get? 0) = false := by
    cases post with
    | nil => rfl
    | cons c rest => simpa [headNonWordB, optWord] using hhead
  have hf1 : tbOk '.' ('9'::post) 1 = true := by
    rw [show tbOk '.' ('9'::post) 1 = (isWordChar '9' != optWord (post.get? 0)) from rfl,
      hop]
    decide
  unfold matchICDAt
  rw [show (('E':: '1':: '1':: '.':: '9'::post).head?) = some 'E' from rfl, hb,
    if_pos rfl]
  dsimp only
  rw [if_pos (by decide : (isUpperAZ 'E' && Char.isDigit '1' && Char.isDigit '1') = true)]
  rw [if_pos (show (('.':: '9'::post).head?) = some '.' from rfl)]
  rw [show ('.':: '9'::post).tail = '9'::post from rfl, ht,
    show min 4 ((['9'] : List Char)).length = 1 from rfl]
  rw [show downFrom (tbOk '.' ('9'::post)) 1 =
    (if tbOk '.' ('9'::post) 1 = true then some 1
     else if tbOk '.' ('9'::post) 0 = true then some 0 else none) from rfl]
  rw [hf1, if_pos rfl]

/-- The I10 token matches exactly (length 3) at a position whose previous
character is non-word, for any admissible right context. -/
theorem matchICD_I10 {prev : Option Char} (hprev : optWord prev = false)
    {post : List Char} (hpost : postOkB post = true) :
    matchICDAt prev ('I' :: '1' :: '0' :: post) = some 3 := by
  have hb : boundary prev (some 'I') = true := by
    unfold boundary
    rw [hprev]
    decide
  have hhead : headNonWordB post = true := by
    simp only [postOkB, Bool.and_eq_true] at hpost
    exact hpost.1
  cases post with
  | nil =>
    unfold matchICDAt
    rw [show (('I':: '1':: '0'::([]:List Char)).head?) = some 'I' from rfl, hb]
    decide
  | cons c rest =>
    have hc : isWordChar c = false := by
      simpa [headNonWordB, optWord] using hhead
    unfold matchICDAt
    rw [show (('I':: '1':: '0'::c::rest).head?) = some 'I' from rfl, hb, if_pos rfl]
    dsimp only
    rw [if_pos (by decide : (isUpperAZ 'I' && Char.isDigit '1' && Char.isDigit '0') = true)]
    by_cases hdot : c = '.'
    · subst hdot
      rw [if_pos (show (('.'::rest).head?) = some '.' from rfl)]
      simp only [postOkB, Bool.and_eq_true] at hpost
      obtain ⟨h1, h2⟩ := hpost
      rw [if_pos (show (('.'::rest).head?) = some '.' from rfl)] at h2
      have ht0 : rest.takeWhile Char.isDigit = [] := takeWhile_digit_nil h2
      rw [show (('.'::rest).tail) = rest from rfl, ht0,
        show min 4 (([] : List Char)).length = 0 from rfl]
      have hf0 : tbOk '.' rest 0 = false := by
        rw [show tbOk '.' rest 0 = (isWordChar '.' != optWord (rest.get? 0)) from rfl]
        have hop : optWord (rest.get? 0) = false := by
          cases rest with
          | nil => rfl
          | cons r rs => simpa [headNonWordB, optWord] using h2
        rw [hop]
        decide
      rw [show downFrom (tbOk '.' rest) 0 =
        (if tbOk '.' rest 0 = true then some 0 else none) from rfl, hf0,
        if_neg (show ¬(false = true) from by decide)]
      dsimp only
      have hfb : tbOk '0' ('.'::rest) 0 = true := by
        rw [show tbOk '0' ('.'::rest) 0 = (isWordChar '0' != isWordChar '.') from rfl]
        decide
      rw [hfb, if_pos rfl]
    · rw [if_neg (show ¬((c::rest).head? = some '.') from fun h => hdot (by
        injection h))]
      rw [takeWhile_digit_nil hhead,
        show min 4 (([] : List Char)).length = 0 from rfl]
      have hf0 : tbOk '0' (c::rest) 0 = true := by
        rw [show tbOk '0' (c::rest) 0 = (isWordChar '0' != isWordChar c) from rfl, hc]
        decide
      rw [show downFrom (tbOk '0' (c::rest)) 0 =
        (if tbOk '0' (c::rest) 0 = true then some 0 else none) from rfl, hf0,
        if_pos rfl]
      rfl

theorem takeWhile_get {p : Char → Bool} :
    ∀ (l : List Char) (j : Nat) (c : Char),
      j < (l.takeWhile p).length → l.get? j = some c → p c = true := by
  intro l
  induction l with
  | nil =>
    intro j c hj _
    simp [List.takeWhile] at hj
  | cons a t ih =>
    intro j c hj hc
    rw [List.takeWhile_cons] at hj
    by_cases hpa : p a = true
    · rw [if_pos hpa] at hj
      simp only [List.length_cons] at hj
      cases j with
      | zero =>
        rw [List.get?_cons_zero] at hc
        injection hc with hc
        rw [← hc]
        exact hpa
      | succ j =>
        rw [List.get?_cons_succ] at hc
        exact ih j c (by omega) hc
    · rw [if_neg hpa] at hj
      simp at hj

theorem matchICD_chars {prev : Option Char} {l : List Char} {n : Nat}
    (h : matchICDAt prev l = some n) :
    (∀ j c, j < n → j ≠ 3 → l.get? j = some c → isWordChar c = true) ∧
    (∀ j c, 4 ≤ j → j < n → l.get? j = some c → c.isDigit = true) := by
  unfold matchICDAt at h
  split at h
  case isFalse => exact Option.noConfusion h
  split at h
  case h_2 => exact Option.noConfusion h
  case h_1 c0 d1 d2 rest hbd =>
    split at h
    case isFalse => exact Option.noConfusion h
    case isTrue hcond =>
      simp only [Bool.and_eq_true] at hcond
      obtain ⟨⟨hup, hdg1⟩, hdg2⟩ := hcond
      split at h
      case isTrue hdot =>
        obtain ⟨rs, rfl⟩ : ∃ rs, rest = '.' :: rs := by
          cases rest with
          | nil => exact absurd hdot (by simp)
          | cons r rs' =>
            rw [List.head?_cons] at hdot
            injection hdot with hdot
            exact ⟨rs', by rw [hdot]⟩
        split at h
        case h_1 k hk =>
          injection h with h
          subst h
          have hb := downFrom_eq_some hk
          have hkle : k ≤ (rs.takeWhile Char.isDigit).length :=
            le_trans hb.1 (min_le_right _ _)
          constructor
          · intro j c hj hj3 hget
            rcases j with _ | _ | _ | _ | m
            · rw [List.get?_cons_zero] at hget
              injection hget with hget
              rw [← hget]
              exact word_of_upper hup
            · rw [show ((c0::d1::d2:: '.'::rs).get? 1) = some d1 from rfl] at hget
              injection hget with hget
              rw [← hget]
              exact word_of_digit hdg1
            · rw [show ((c0::d1::d2:: '.'::rs).get? 2) = some d2 from rfl] at hget
              injection hget with hget
              rw [← hget]
              exact word_of_digit hdg2
            · exact absurd rfl hj3
            · have hget' : rs.get? m = some c := hget
              exact word_of_digit (takeWhile_get rs m c
                (lt_of_lt_of_le (by omega) hkle) hget')
          · intro j c hj4 hj hget
            obtain ⟨m, rfl⟩ : ∃ m, j = m + 4 := ⟨j - 4, by omega⟩
            have hget' : rs.get? m = some c := hget
            exact takeWhile_get rs m c (lt_of_lt_of_le (by omega) hkle) hget'
        case h_2 =>
          split at h
          case isTrue =>
            injection h with h
            subst h
            constructor
            · intro j c hj hj3 hget
              rcases j with _ | _ | _ | _ | m
              · rw [List.get?_cons_zero] at hget
                injection hget with hget
                rw [← hget]
                exact word_of_upper hup
              · rw [show ((c0::d1::d2:: '.'::rs).get? 1) = some d1 from rfl] at hget
                injection hget with hget
                rw [← hget]
                exact word_of_digit hdg1
              · rw [show ((c0::d1::d2:: '.'::rs).get? 2) = some d2 from rfl] at hget
                injection hget with hget
                rw [← hget]
                exact word_of_digit hdg2
              · exact absurd rfl hj3
              · omega
            · intro j c hj4 hj hget
              omega
          case isFalse => exact Option.noConfusion h
      case isFalse =>
        rw [Option.map_eq_some'] at h
        obtain ⟨k, hk, rfl⟩ := h
        have hb := downFrom_eq_some hk
        have hkle : k ≤ (rest.takeWhile Char.isDigit).length :=
          le_trans hb.1 (min_le_right _ _)
        constructor
        · intro j c hj hj3 hget
          rcases j with _ | _ | _ | _ | m
          · rw [List.get?_cons_zero] at hget
            injection hget with hget
            rw [← hget]
            exact word_of_upper hup
          · rw [show ((c0::d1::d2::rest).get? 1) = some d1 from rfl] at hget
            injection hget with hget
            rw [← hget]
            exact word_of_digit hdg1
          · rw [show ((c0::d1::d2::rest).get? 2) = some d2 from rfl] at hget
            injection hget with hget
            rw [← hget]
            exact word_of_digit hdg2
          · exact absurd rfl hj3
          · have hget' : rest.get? (m + 1) = some c := hget
            exact word_of_digit (takeWhile_get rest (m + 1) c
              (lt_of_lt_of_le (by omega) hkle) hget')
        · intro j c hj4 hj hget
          obtain ⟨m, rfl⟩ : ∃ m, j = m + 4 := ⟨j - 4, by omega⟩
          have hget' : rest.get? (m + 1) = some c := hget
          exact takeWhile_get rest (m + 1) c (lt_of_lt_of_le (by omega) hkle) hget'

theorem findallICD_cons_some {prev : Option Char} {c : Char} {cs : List Char}
    {n : Nat} (h : matchICDAt prev (c :: cs) = some n) :
    findallICD prev (c :: cs) =
      (c :: cs).take n ::
        findallICD ((c :: cs).take n).getLast? ((c :: cs).drop n) := by
  rw [findallICD]
  split
  case h_1 n' heq =>
    rw [h] at heq
    injection heq with heq
    rw [heq]
  case h_2 heq =>
    rw [h] at heq
    exact Option.noConfusion heq

theorem findallICD_cons_none {prev : Option Char} {c : Char} {cs : List Char}
    (h : matchICDAt prev (c :: cs) = none) :
    findallICD prev (c :: cs) = findallICD (some c) cs := by
  rw [findallICD]
  split
  case h_1 n' heq =>
    rw [h] at heq
    exact Option.noConfusion heq
  case h_2 heq => rfl

theorem charBefore_cons (p : Char) (pre' : List Char) (prev : Option Char) :
    charBefore (some p) pre' = charBefore prev (p :: pre') := by
  unfold charBefore
  cases pre' with
  | nil => rfl
  | cons q qs =>
    rw [List.getLast?_cons_cons]
    cases hgl : (q :: qs).getLast? with
    | none => exact absurd (List.getLast?_eq_none.mp hgl) (by simp)
    | some c => rfl

theorem charBefore_of_ne_nil {prev : Option Char} {pre : List Char}
    (h : pre ≠ []) : charBefore prev pre = pre.getLast? := by
  unfold charBefore
  cases hgl : pre.getLast? with
  | none => exact absurd (List.getLast?_eq_none.mp hgl) h
  | some c => rfl

theorem getLast?_drop_of_ne_nil {l : List Char} {n : Nat}
    (h : l.drop n ≠ []) : (l.drop n).getLast? = l.getLast? := by
  conv_rhs => rw [← List.take_append_drop n l]
  rw [List.getLast?_append_of_ne_nil _ h]

/-- A successful attempt that starts strictly inside pre cannot reach the
token: the non-word character just before the token would have to sit at
match offset 3 (the dot), forcing the token's head — a non-digit — to sit
at a digit-only offset. -/
theorem match_within_pre {prev : Option Char} {pre tok post : List Char}
    {n : Nat} (hm : matchICDAt prev (pre ++ (tok ++ post)) = some n)
    (hpre : pre ≠ []) (hlast : optWord pre.getLast? = false)
    (hheadD : ∀ t, tok.head? = some t → t.isDigit = false)
    (htok : tok ≠ []) : n ≤ pre.length := by
  by_contra hn
  push_neg at hn
  obtain ⟨hword, hdig⟩ := matchICD_chars hm
  have hl1 : 1 ≤ pre.length := List.length_pos.mpr hpre
  obtain ⟨lp, hlp⟩ : ∃ lp, pre.getLast? = some lp := by
    cases hgl : pre.getLast? with
    | none => exact absurd (List.getLast?_eq_none.mp hgl) hpre
    | some c => exact ⟨c, rfl⟩
  have hlpw : isWordChar lp = false := by
    rw [hlp] at hlast
    simpa [optWord] using hlast
  have hget1 : (pre ++ (tok ++ post)).get? (pre.length - 1) = some lp := by
    rw [List.get?_append (by omega), ← List.getLast?_eq_get?]
    exact hlp
  by_cases h3 : pre.length - 1 = 3
  · obtain ⟨t, rest, rfl⟩ : ∃ t rest, tok = t :: rest := by
      cases tok with
      | nil => exact absurd rfl htok
      | cons a b => exact ⟨a, b, rfl⟩
    have hget2 : (pre ++ ((t :: rest) ++ post)).get? pre.length = some t := by
      rw [List.get?_append_right (le_refl _), Nat.sub_self]
      rfl
    have hd : t.isDigit = true :=
      hdig pre.length t (by omega) (by omega) hget2
    rw [hheadD t rfl] at hd
    exact Bool.noConfusion hd
  · have hw : isWordChar lp = true :=
      hword (pre.length - 1) lp (by omega) h3 hget1
    rw [hlpw] at hw
    exact Bool.noConfusion hw

theorem tok_mem_findallICD_base {tok post : List Char} {prev : Option Char}
    (hm : matchICDAt prev (tok ++ post) = some tok.length) (htok : tok ≠ []) :
    tok ∈ findallICD prev (tok ++ post) := by
  obtain ⟨a, as, rfl⟩ : ∃ a as, tok = a :: as := by
    cases tok with
    | nil => exact absurd rfl htok
    | cons a as => exact ⟨a, as, rfl⟩
  rw [show ((a :: as) ++ post) = a :: (as ++ post) from rfl] at hm ⊢
  rw [findallICD_cons_some hm]
  rw [show (a :: (as ++ post)) = (a :: as) ++ post from rfl, List.take_left]
  exact List.mem_cons_self _ _

/-- Main scan lemma: a standalone token occurrence is always collected by
the findall scan, whatever prefix precedes it — a match attempted inside
the prefix can never cross the non-word boundary into the token. -/
theorem tok_mem_findallICD {tok : List Char}
    (hmatch : ∀ (prev : Option Char) (post : List Char),
      optWord prev = false → postOkB post = true →
      matchICDAt prev (tok ++ post) = some tok.length)
    (hheadD : ∀ t, tok.head? = some t → t.isDigit = false)
    (htok : tok ≠ []) :
    ∀ (N : Nat) (pre : List Char), pre.length ≤ N →
      ∀ (prev : Option Char) (post : List Char),
        optWord (charBefore prev pre) = false → postOkB post = true →
        tok ∈ findallICD prev (pre ++ (tok ++ post)) := by
  intro N
  induction N with
  | zero =>
    intro pre hlen prev post hbefore hpost
    have hpre : pre = [] := List.length_eq_zero.mp (by omega)
    subst hpre
    rw [List.nil_append]
    exact tok_mem_findallICD_base
      (hmatch prev post (by simpa [charBefore] using hbefore) hpost) htok
  | succ N ih =>
    intro pre hlen prev post hbefore hpost
    cases pre with
    | nil =>
      rw [List.nil_append]
      exact tok_mem_findallICD_base
        (hmatch prev post (by simpa [charBefore] using hbefore) hpost) htok
    | cons p pre' =>
      have hlen' : pre'.length ≤ N := by
        simp only [List.length_cons] at hlen
        omega
      cases hm : matchICDAt prev ((p :: pre') ++ (tok ++ post)) with
      | none =>
        rw [show ((p :: pre') ++ (tok ++ post)) = p :: (pre' ++ (tok ++ post))
          from rfl] at hm ⊢
        rw [findallICD_cons_none hm]
        exact ih pre' hlen' (some p) post
          (by rw [charBefore_cons p pre' prev]; exact hbefore) hpost
      | some n =>
        have hlast : optWord ((p :: pre').getLast?) = false := by
          rw [← @charBefore_of_ne_nil prev (p :: pre') (by simp)]
          exact hbefore
        have hn : n ≤ (p :: pre').length :=
          match_within_pre hm (by simp) hlast hheadD htok
        have hn3 : 3 ≤ n := (matchICD_bounds hm).1
        rw [show ((p :: pre') ++ (tok ++ post)) = p :: (pre' ++ (tok ++ post))
          from rfl] at hm ⊢
        rw [findallICD_cons_some hm]
        apply List.mem_cons_of_mem
        have hdrop : (p :: (pre' ++ (tok ++ post))).drop n =
            ((p :: pre').drop n) ++ (tok ++ post) := by
          rw [show (p :: (pre' ++ (tok ++ post))) = ((p :: pre') ++ (tok ++ post))
            from rfl]
          rw [List.drop_append_eq_append_drop, Nat.sub_eq_zero_of_le hn,
            List.drop_zero]
        rw [hdrop]
        have hlendrop : ((p :: pre').drop n).length ≤ N := by
          rw [List.length_drop]
          simp only [List.length_cons] at hlen ⊢
          omega
        apply ih ((p :: pre').drop n) hlendrop _ post ?_ hpost
        by_cases hne : (p :: pre').drop n = []
        · rw [hne]
          have hnlen : n = (p :: pre').length := by
            have := List.length_eq_zero.mpr hne
            rw [List.length_drop] at this
            simp only [List.length_cons] at this hn ⊢
            omega
          have htake : (p :: (pre' ++ (tok ++ post))).take n = p :: pre' := by
            rw [show (p :: (pre' ++ (tok ++ post))) =
              ((p :: pre') ++ (tok ++ post)) from rfl, hnlen, List.take_left]
          rw [htake]
          simpa [charBefore] using hlast
        · rw [charBefore_of_ne_nil hne, getLast?_drop_of_ne_nil hne]
          exact hlast

/-- Claim C9 confirmed: whenever E11.9 and I10 occur as standalone tokens
of the input text (non-word characters or text edges around them, and no
dot-digit continuation that the regex would munch), the deterministic
pattern extraction returns a diagnosis_codes list containing both codes
and free of duplicates; the list the extraction stage stores is exactly
this deduplicated findall result, for every key_value_pairs input — the
computation consults no extraction service. -/
theorem C9_diagnosis_codes (text : String)
    (h1 : icdTokenOccurs text.toList ('E' :: '1' :: '1' :: '.' :: '9' :: []))
    (h2 : icdTokenOccurs text.toList ('I' :: '1' :: '0' :: [])) :
    "E11.9" ∈ diagnosisCodesOf text ∧ "I10" ∈ diagnosisCodesOf text ∧
    (diagnosisCodesOf text).Nodup ∧
    ∀ kvp : KVP, getKey (extract_with_rules text kvp) "diagnosis_codes" =
      some (.arr (diagnosisCodesOf text)) := by
  have hmemE : ('E' :: '1' :: '1' :: '.' :: '9' :: []) ∈
      findallICD none text.toList := by
    obtain ⟨pre, post, heq, hbef, hpost⟩ := h1
    rw [heq]
    exact tok_mem_findallICD
      (fun prev post hp hq => matchICD_E119 hp hq)
      (fun t ht => by injection ht with ht; rw [← ht]; decide)
      (by simp)
      pre.length pre le_rfl none post hbef hpost
  have hmemI : ('I' :: '1' :: '0' :: []) ∈ findallICD none text.toList := by
    obtain ⟨pre, post, heq, hbef, hpost⟩ := h2
    rw [heq]
    exact tok_mem_findallICD
      (fun prev post hp hq => matchICD_I10 hp hq)
      (fun t ht => by injection ht with ht; rw [← ht]; decide)
      (by simp)
      pre.length pre le_rfl none post hbef hpost
  refine ⟨?_, ?_, List.nodup_dedup _, fun kvp => by cases kvp <;> rfl⟩
  · unfold diagnosisCodesOf
    rw [List.mem_dedup]
    exact List.mem_map.mpr ⟨_, hmemE, by decide⟩
  · unfold diagnosisCodesOf
    rw [List.mem_dedup]
    exact List.mem_map.mpr ⟨_, hmemI, by decide⟩

/-- Witness for C9 on a concrete text containing both tokens. -/
theorem C9_diagnosis_codes_witness :
    icdTokenOccurs "Dx E11.9 plus I10 end".toList
      ('E' :: '1' :: '1' :: '.' :: '9' :: []) ∧
    icdTokenOccurs "Dx E11.9 plus I10 end".toList ('I' :: '1' :: '0' :: []) ∧
    "E11.9" ∈ diagnosisCodesOf "Dx E11.9 plus I10 end" ∧
    "I10" ∈ diagnosisCodesOf "Dx E11.9 plus I10 end" ∧
    (diagnosisCodesOf "Dx E11.9 plus I10 end").Nodup := by
  have h1 : icdTokenOccurs "Dx E11.9 plus I10 end".toList
      ('E' :: '1' :: '1' :: '.' :: '9' :: []) :=
    ⟨"Dx ".toList, " plus I10 end".toList, by decide, by decide, by decide⟩
  have h2 : icdTokenOccurs "Dx E11.9 plus I10 end".toList
      ('I' :: '1' :: '0' :: []) :=
    ⟨"Dx E11.9 plus ".toList, " end".toList, by decide, by decide, by decide⟩
  obtain ⟨hm1, hm2, hnd, -⟩ := C9_diagnosis_codes "Dx E11.9 plus I10 end" h1 h2
  exact ⟨h1, h2, hm1, hm2, hnd⟩

end HealthcareClaims
